import Mathlib

/-!
# Verification of the filebrowser HTTP file server (`main.go`)

A shallow embedding of the path-confinement, directory-listing, breadcrumb,
upload and size-formatting logic of `main.go`, together with theorems that
settle the specification's claims about it.

Conventions of the embedding:
* Go strings are modelled by Lean `String` / `List Char`.  All served paths
  and the confinement root `/files` are ASCII, and UTF-8 byte order equals
  codepoint order, so Go's byte-wise operations (`strings.HasPrefix`,
  `strings.Split`, `<` on strings) coincide with the `List Char` versions
  used here.
* Filesystem calls (`os.Stat`, `os.ReadDir`, `entry.Info`) are abstracted
  as oracle inputs; handlers become pure functions from the request plus
  the oracle answers to a response value and a list of write effects.
* `float64` arithmetic inside `formatSize` is modelled by exact rational
  arithmetic with round-half-to-even at one decimal digit, which agrees
  with Go's `%.1f` on every value whose mantissa fits in a float64.
-/

namespace Filebrowser

/-- `strings.Split(s, "/")` from Go, specialised to the single-byte
separator `/` (the only separator the program uses). -/
def splitSlash : List Char → List (List Char)
  | [] => [[]]
  | a :: rest =>
    match splitSlash rest with
    | [] => [[a]]
    | g :: gs => if a = '/' then [] :: g :: gs else (a :: g) :: gs

/-- Joining path segments with `/` between them (the inverse direction of
`splitSlash`), as `strings.Join(segs, "/")` does. -/
def joinSegs : List (List Char) → List Char
  | [] => []
  | [s] => s
  | s :: rest => s ++ '/' :: joinSegs rest

/-- One step of `path/filepath.Clean`'s segment processing for a rooted
path: empty and `.` segments are dropped, `..` pops the previous segment
(or is dropped at the root), anything else is kept. -/
def normStep (acc : List (List Char)) (seg : List Char) : List (List Char) :=
  if seg = [] ∨ seg = ['.'] then acc
  else if seg = ['.', '.'] then acc.dropLast
  else acc ++ [seg]

/-- Segment normalisation of `filepath.Clean` for rooted paths. -/
def normSegs (segs : List (List Char)) : List (List Char) :=
  segs.foldl normStep []

/-- One step of `filepath.Clean`'s segment processing for a relative path:
like `normStep`, except that leading `..` segments are preserved. -/
def normStepRel (acc : List (List Char)) (seg : List Char) : List (List Char) :=
  if seg = [] ∨ seg = ['.'] then acc
  else if seg = ['.', '.'] then
    if acc = [] ∨ acc.getLast? = some ['.', '.'] then acc ++ [seg] else acc.dropLast
  else acc ++ [seg]

/-- Segment normalisation of `filepath.Clean` for relative paths. -/
def normSegsRel (segs : List (List Char)) : List (List Char) :=
  segs.foldl normStepRel []

/-- `filepath.Clean` on a rooted (absolute) path, at the character level:
the result is `/` followed by the normalised segments. -/
def cleanAbsL (l : List Char) : List Char :=
  '/' :: joinSegs (normSegs (splitSlash l))

/-- `path/filepath.Clean` (Unix rules) on an arbitrary path string. -/
def filepathClean (s : String) : String :=
  match s.data with
  | [] => "."
  | '/' :: _ => String.mk (cleanAbsL s.data)
  | _ =>
    match joinSegs (normSegsRel (splitSlash s.data)) with
    | [] => "."
    | l => String.mk l

/-- `filepath.Join(base, p)` for an absolute `base`, which Go defines as
`Clean(base + "/" + p)`. -/
def filepathJoin (base p : String) : String :=
  String.mk (cleanAbsL (base.data ++ '/' :: p.data))

/-- `strings.HasPrefix(s, pre)`. -/
def goHasPrefixB (s pre : String) : Bool :=
  pre.data.isPrefixOf s.data

/-- `strings.HasSuffix(s, post)` (used for the trailing-`/` test). -/
def goHasSuffix (s post : String) : Bool :=
  post.data.isSuffixOf s.data

/-- `strings.Trim(s, "/")`: strip leading and trailing `/` characters. -/
def trimSlash (s : String) : String :=
  String.mk ((((s.data.dropWhile (· = '/')).reverse).dropWhile (· = '/')).reverse)

/-- `strings.ReplaceAll(name, "/", "_")` from `uploadHandler` line 322:
every `/` byte of the declared upload filename becomes `_`. -/
def sanitizeFilename (s : String) : String :=
  String.mk (s.data.map fun c => if c = '/' then '_' else c)

/-- Go's built-in `<` on strings: byte-wise lexicographic comparison.
On valid UTF-8 this coincides with codepoint-wise lexicographic order,
which is what comparing `Char` codepoints computes. -/
def strLtL : List Char → List Char → Bool
  | _, [] => false
  | [], _ :: _ => true
  | a :: as, b :: bs =>
    if a.toNat < b.toNat then true
    else if b.toNat < a.toNat then false
    else strLtL as bs

/-- Whether one character sequence occurs contiguously inside another
(used to state that a message does contain a filesystem path). -/
def containsSeq (pat : List Char) : List Char → Bool
  | [] => pat.isPrefixOf []
  | a :: rest => pat.isPrefixOf (a :: rest) || containsSeq pat rest

/-! ## The browse handler (`pathHandler`, main.go lines 121-183)

`os.Stat` is abstracted as an oracle `FS` answering, for each absolute
path, whether it exists and whether it is a directory or a regular file.
The metrics counters touched by the handler carry no decision logic and
are omitted.  `http.ServeFile` and `listDirectory` are external effects
here; the response value records which one the handler invokes and on
which path. -/

/-- What `os.Stat` reports an existing path to be. -/
inductive FKind where
  | file
  | dir
deriving DecidableEq, Repr

/-- The filesystem oracle: `none` means `os.Stat` fails (no such path). -/
abbrev FS := String → Option FKind

/-- The observable outcome of `pathHandler` for one request. -/
inductive BrowseResponse where
  /-- `http.NotFound`: a 404 with the fixed body `404 page not found`. -/
  | notFound
  /-- `http.Error(w, msg, 500)`. -/
  | internalError (msg : String)
  /-- `http.Error(w, msg, 404)` (the branch that formats its own body). -/
  | notFoundMsg (msg : String)
  /-- `http.Redirect(w, r, loc, 302)`. -/
  | redirect (loc : String)
  /-- `listDirectory(w, fullPath, urlPath)` is invoked. -/
  | listing (fullPath : String)
  /-- `http.ServeFile(w, r, fullPath)` is invoked. -/
  | serveFile (fullPath : String)
deriving DecidableEq, Repr

/-- The confinement root (`filesDir` constant in main.go). -/
def filesDir : String := "/files"

/-- `pathHandler` (main.go lines 121-183), decision logic only.
`filepath.Abs` on the already-absolute, already-cleaned results of
`filepath.Join` is the identity, so `absPath = fullPath` and
`absFilesDir = filesDir` here. -/
def pathHandler (fs : FS) (urlPath : String) : BrowseResponse :=
  let fullPath := filepathJoin filesDir urlPath
  if !(goHasPrefixB fullPath filesDir) then
    .notFound
  else if fs filesDir = none then
    .internalError ("files dir " ++ filesDir ++ ": no such directory")
  else
    match fs fullPath with
    | none =>
      if urlPath = "/" then
        .internalError ("files dir " ++ filesDir ++ ": inaccessible or bad perms")
      else
        .notFoundMsg (fullPath ++ ": no such file or directory")
    | some .dir =>
      if !(goHasSuffix urlPath "/") then .redirect (urlPath ++ "/")
      else .listing fullPath
    | some .file => .serveFile fullPath

/-- Modelled from the spec: a canonical absolute path lies within the
confinement root iff it equals the root or the root followed by `/` is a
prefix of it.  Used only to state whether an accepted path escapes. -/
def withinRoot (p : String) : Bool :=
  p = filesDir || goHasPrefixB p (filesDir ++ "/")

/-- A filesystem in which `/files` exists and a sibling directory
`/filesecret` (outside the confinement root) also exists. -/
def fsEscape : FS := fun p =>
  if p = "/files" then some .dir
  else if p = "/filesecret" then some .dir
  else none

/-- A filesystem in which only the root `/files` itself exists. -/
def fsFilesOnly : FS := fun p =>
  if p = "/files" then some .dir else none

/-- A filesystem whose root contains one subdirectory `sub`. -/
def fsSub : FS := fun p =>
  if p = "/files" then some .dir
  else if p = "/files/sub" then some .dir
  else none

/-! ## The upload handler (`uploadHandler`, main.go lines 286-350)

The multipart machinery is abstracted: `dirParam` is what
`r.FormValue("dir")` returns, `formFile` is `some declaredName` when
`r.FormFile("file")` succeeds and `none` when it fails, and `createOk` /
`copyOk` say whether `os.Create` and `io.Copy` succeed.  The list of
`FsOp`s records every filesystem write the handler performs or attempts,
in order. -/

/-- A filesystem write performed by `uploadHandler`. -/
inductive FsOp where
  /-- `os.MkdirAll(path, os.ModePerm)`. -/
  | mkdirAll (path : String)
  /-- `os.Create(path)`. -/
  | create (path : String)
  /-- `io.Copy` of the request body into `path`. -/
  | copyTo (path : String)
deriving DecidableEq, Repr

/-- The observable HTTP outcome of `uploadHandler`. -/
inductive UploadResponse where
  /-- `http.Error(w, msg, 403)`. -/
  | forbidden (msg : String)
  /-- `http.Redirect(w, r, loc, 303)`. -/
  | seeOther (loc : String)
  /-- `http.Error(w, msg, 400)`. -/
  | badRequest (msg : String)
  /-- `http.Error(w, msg, 500)`. -/
  | internalError (msg : String)
deriving DecidableEq, Repr

/-- One upload request together with the oracle answers for the external
calls `uploadHandler` makes. -/
structure UploadCtx where
  /-- The global `enableUpload` flag. -/
  enableUpload : Bool
  /-- The HTTP method of the request. -/
  method : String
  /-- `r.FormValue("dir")`. -/
  dirParam : String
  /-- `some declaredName` when `r.FormFile("file")` yields a part whose
  declared filename is `declaredName`; `none` when it fails. -/
  formFile : Option String
  /-- Whether `os.Create` on the final path succeeds. -/
  createOk : Bool
  /-- Whether `io.Copy` into the created file succeeds. -/
  copyOk : Bool
deriving DecidableEq, Repr

/-- `uploadHandler` (main.go lines 286-350).  As in `pathHandler`,
`filepath.Abs` on the absolute cleaned join results is the identity. -/
def uploadHandler (c : UploadCtx) : UploadResponse × List FsOp :=
  if !c.enableUpload then
    (.forbidden "File uploads are disabled", [])
  else if c.method ≠ "POST" then
    (.seeOther "/", [])
  else
    let targetDir := if c.dirParam = "" then "/" else c.dirParam
    let fullPath := filepathJoin filesDir (filepathClean targetDir)
    match c.formFile with
    | none => (.badRequest "Invalid upload", [.mkdirAll fullPath])
    | some declaredName =>
      let filename := sanitizeFilename declaredName
      let finalPath := filepathJoin fullPath filename
      if !(goHasPrefixB finalPath filesDir) then
        (.forbidden "Invalid file path", [.mkdirAll fullPath])
      else if !c.createOk then
        (.internalError "Unable to save file", [.mkdirAll fullPath, .create finalPath])
      else if !c.copyOk then
        (.internalError "Error saving file",
          [.mkdirAll fullPath, .create finalPath, .copyTo finalPath])
      else
        (.seeOther targetDir, [.mkdirAll fullPath, .create finalPath, .copyTo finalPath])

/-! ## Size formatting (`formatSize`, main.go lines 457-468) -/

/-- The unit-reduction loop of `formatSize`
(`for n := bytes / unit; n >= unit; n /= unit { div *= unit; exp++ }`),
written with an explicit fuel argument so that it is structurally
recursive; `sizeLoopF_fuel_irrelevant` below shows any fuel `≥ n` gives
the same answer, and the initial call passes `fuel = n`, which always
suffices because `n` strictly shrinks each iteration. -/
def sizeLoopF : Nat → Nat → Nat → Nat → Nat × Nat
  | 0, _, d, e => (d, e)
  | fuel + 1, n, d, e =>
    if 1024 ≤ n then sizeLoopF fuel (n / 1024) (d * 1024) (e + 1) else (d, e)

/-- The `div` and `exp` the loop of `formatSize` ends with, for a byte
count `b ≥ 1024` (entry values `n = b / 1024`, `div = 1024`, `exp = 0`). -/
def sizeLoop (b : Nat) : Nat × Nat :=
  sizeLoopF b (b / 1024) 1024 0

/-- The unit index `exp` computed by `formatSize` for byte count `b`. -/
def sizeExp (b : Nat) : Nat :=
  (sizeLoop b).2

/-- Round the rational `num / den` to the nearest integer, ties to even:
the value Go's `%.1f` prints (scaled by ten) whenever the float64
arithmetic is exact. -/
def roundHalfEven (num den : Nat) : Nat :=
  let q := num / den
  let r := num % den
  if 2 * r < den then q
  else if den < 2 * r then q + 1
  else if q % 2 = 0 then q else q + 1

/-- The unit characters `"KMGTPE"` indexed by `exp`.  Go's string
indexing panics out of bounds; the `getD` default `'?'` below is shown
unreachable for every int64 input by the bound `sizeExp b ≤ 5`. -/
def sizeUnits : List Char := ['K', 'M', 'G', 'T', 'P', 'E']

/-- `formatSize` (main.go lines 457-468).  `float64(bytes)/float64(div)`
with `%.1f` rendering is modelled by exact rounding of the rational
`10 * bytes / div`, half to even. -/
def formatSize (bytes : Int) : String :=
  if bytes < 1024 then toString bytes ++ " B"
  else
    let b := bytes.toNat
    let p := sizeLoop b
    let tenths := roundHalfEven (10 * b) p.1
    Nat.repr (tenths / 10) ++ "." ++ Nat.repr (tenths % 10) ++ " "
      ++ String.mk [sizeUnits.getD p.2 '?'] ++ "B"

/-! ## Directory listing (`listDirectory`, main.go lines 185-284)

Only the construction and ordering of the per-entry rows is modelled;
template rendering is an external concern.  The oracle answers for the
`os.ReadDir`/`entry.Info` calls are carried by `RawEntry`. -/

/-- One row of the rendered listing (the Go `FileInfo` struct). -/
structure FileInfo where
  /-- Entry base name. -/
  Name : String
  /-- Formatted size or item count. -/
  Size : String
  /-- Formatted modification time. -/
  LastModified : String
  /-- Whether the entry is a directory. -/
  IsDir : Bool
  /-- Relative link: the name, plus a trailing `/` for directories. -/
  URL : String
deriving DecidableEq, Repr

/-- One `os.DirEntry` of the listed directory together with the oracle
answers for the calls made on it: `infoOk` is whether `entry.Info()`
succeeds, `size`/`modTime` are the reported size and preformatted
modification time, and `subCount` is `some n` when `os.ReadDir` on the
child directory succeeds with `n` entries and `none` when it fails. -/
structure RawEntry where
  /-- `entry.Name()`. -/
  name : String
  /-- `entry.IsDir()`. -/
  isDir : Bool
  /-- Whether `entry.Info()` succeeds. -/
  infoOk : Bool
  /-- `info.Size()` (meaningful for files). -/
  size : Int
  /-- `info.ModTime()` already formatted (time formatting is external). -/
  modTime : String
  /-- Item count of the child directory, `none` if its read fails. -/
  subCount : Option Nat
deriving DecidableEq, Repr

/-- The size column for a child directory (main.go lines 213-223):
an item count, singular for exactly one, `-` when the read fails. -/
def dirSizeDisplay (subCount : Option Nat) : String :=
  match subCount with
  | some n => if n = 1 then "1 item" else Nat.repr n ++ " items"
  | none => "-"

/-- The loop body of `listDirectory` (main.go lines 203-235): entries
whose `Info()` fails are skipped, directories display an item count and
get a trailing `/` on their link, files display a formatted size. -/
def mkFileInfo (e : RawEntry) : Option FileInfo :=
  if !e.infoOk then none
  else some {
    Name := e.name
    Size := if e.isDir then dirSizeDisplay e.subCount else formatSize e.size
    LastModified := e.modTime
    IsDir := e.isDir
    URL := if e.isDir then e.name ++ "/" else e.name }

/-- The comparison passed to `sort.Slice` (main.go lines 237-245):
directories first, then ascending by name. -/
def entLess (a b : FileInfo) : Bool :=
  if a.IsDir && !b.IsDir then true
  else if !a.IsDir && b.IsDir then false
  else strLtL a.Name.data b.Name.data

/-- The `sort.Slice` call: Go guarantees exactly that the result is a
permutation of the input that is sorted with respect to `entLess`
(no element is `entLess` than a predecessor); `mergeSort` with the
complementary reflexive relation realises that contract. -/
def sortFileInfos (l : List FileInfo) : List FileInfo :=
  l.mergeSort (fun a b => !(entLess b a))

/-- `listDirectory`'s row construction: build a `FileInfo` per readable
entry, then sort. -/
def listDirectory (entries : List RawEntry) : List FileInfo :=
  sortFileInfos (entries.filterMap mkFileInfo)

/-- The observable HTTP outcome of the `listDirectory` handler itself. -/
inductive ListingOutcome where
  /-- `http.Error(w, msg, 500)`. -/
  | errorResp (msg : String)
  /-- The page is rendered from these rows (template execution is an
  external concern). -/
  | page (rows : List FileInfo)
deriving DecidableEq, Repr

/-- `listDirectory` as an HTTP handler (main.go lines 185-284):
`readDir` is the `os.ReadDir` oracle answer for the listed directory
(`none` when it fails), `parseOk` is whether `template.Parse` on the
constant `htmlTemplate` succeeds.  A failed directory read is answered
with the fixed literal `Error reading directory`; a failed parse with
the fixed literal `Error rendering page`; neither echoes a path. -/
def listDirectoryHandler (readDir : Option (List RawEntry)) (parseOk : Bool) : ListingOutcome :=
  match readDir with
  | none => .errorResp "Error reading directory"
  | some entries =>
    if !parseOk then .errorResp "Error rendering page"
    else .page (listDirectory entries)

/-! ## Breadcrumbs (`buildBreadcrumbs`, main.go lines 486-499) -/

/-- A breadcrumb segment (the Go `Crumb` struct). -/
structure Crumb where
  /-- Display label: `/` for the root, `<segment>/` otherwise. -/
  Label : String
  /-- Cumulative URL up to and including this segment. -/
  URL : String
deriving DecidableEq, Repr

/-- `buildBreadcrumbs` (main.go lines 486-499). -/
def buildBreadcrumbs (urlPath : String) : List Crumb :=
  let rootCrumb : Crumb := { Label := "/", URL := "/" }
  let clean := trimSlash urlPath
  if clean = "" then [rootCrumb]
  else
    let parts := splitSlash clean.data
    (parts.foldl
      (fun st p =>
        let current := st.1 ++ String.mk p ++ "/"
        (current, st.2 ++ [{ Label := String.mk p ++ "/", URL := current }]))
      ("/", [rootCrumb])).2

/-- The crumb sequence the spec describes for the non-root segments:
for each segment in order, a crumb labelled `<segment>/` whose URL is the
cumulative path so far ending in `/`.  `buildBreadcrumbs` is proved to
produce exactly the root crumb followed by this sequence. -/
def crumbsFrom (pre : String) : List (List Char) → List Crumb
  | [] => []
  | p :: rest =>
    { Label := String.mk p ++ "/", URL := pre ++ String.mk p ++ "/" }
      :: crumbsFrom (pre ++ String.mk p ++ "/") rest

/-! ## Helper lemmas -/

theorem strLtL_asymm : ∀ {s t : List Char}, strLtL s t = true → strLtL t s = false := by
  intro s
  induction s with
  | nil =>
    intro t h
    cases t with
    | nil => simp [strLtL] at h
    | cons b bs => rfl
  | cons a as ih =>
    intro t h
    cases t with
    | nil => simp [strLtL] at h
    | cons b bs =>
      simp only [strLtL] at h ⊢
      by_cases hab : a.toNat < b.toNat
      · rw [if_neg (by omega), if_pos hab]
      · rw [if_neg hab] at h
        by_cases hba : b.toNat < a.toNat
        · rw [if_pos hba] at h
          exact absurd h (by simp)
        · rw [if_neg hba] at h
          rw [if_neg hba, if_neg hab]
          exact ih h

theorem strLtL_negtrans :
    ∀ {a b c : List Char}, strLtL b a = false → strLtL c b = false → strLtL c a = false := by
  intro a
  induction a with
  | nil =>
    intro b c _ _
    cases c <;> rfl
  | cons ha as ih =>
    intro b c h1 h2
    cases b with
    | nil => simp [strLtL] at h1
    | cons hb bs =>
      cases c with
      | nil => simp [strLtL] at h2
      | cons hc cs =>
        simp only [strLtL] at h1 h2 ⊢
        by_cases hba : hb.toNat < ha.toNat
        · rw [if_pos hba] at h1
          exact absurd h1 (by simp)
        · by_cases hcb : hc.toNat < hb.toNat
          · rw [if_pos hcb] at h2
            exact absurd h2 (by simp)
          · rw [if_neg hba] at h1
            rw [if_neg hcb] at h2
            rw [if_neg (by omega : ¬ hc.toNat < ha.toNat)]
            by_cases hac : ha.toNat < hc.toNat
            · rw [if_pos hac]
            · rw [if_neg hac]
              rw [if_neg (by omega : ¬ ha.toNat < hb.toNat)] at h1
              rw [if_neg (by omega : ¬ hb.toNat < hc.toNat)] at h2
              exact ih h1 h2

theorem entLess_negtrans {a b c : FileInfo}
    (h1 : entLess b a = false) (h2 : entLess c b = false) : entLess c a = false := by
  unfold entLess at h1 h2 ⊢
  cases hA : a.IsDir <;> cases hB : b.IsDir <;> cases hC : c.IsDir <;>
    simp [hA, hB, hC] at h1 h2 ⊢ <;>
    exact strLtL_negtrans h1 h2

theorem entLess_asymm {a b : FileInfo} (h : entLess a b = true) : entLess b a = false := by
  unfold entLess at h ⊢
  cases hA : a.IsDir <;> cases hB : b.IsDir <;> simp [hA, hB] at h ⊢ <;>
    exact strLtL_asymm h

theorem sortFileInfos_perm (l : List FileInfo) : (sortFileInfos l).Perm l :=
  List.mergeSort_perm l _

theorem sortFileInfos_pairwise (l : List FileInfo) :
    (sortFileInfos l).Pairwise (fun a b => entLess b a = false) := by
  have h := @List.sorted_mergeSort FileInfo (fun a b => !(entLess b a))
    (fun a b c hab hbc => by
      simp only [Bool.not_eq_true'] at hab hbc ⊢
      exact entLess_negtrans hab hbc)
    (fun a b => by
      by_cases h : entLess b a = true
      · have := entLess_asymm h
        simp [this]
      · simp [h])
    l
  refine h.imp ?_
  intro a b hab
  simpa using hab

theorem splitSlash_ne_nil : ∀ l : List Char, splitSlash l ≠ [] := by
  intro l
  cases l with
  | nil => simp [splitSlash]
  | cons a as =>
    simp only [splitSlash]
    cases splitSlash as with
    | nil => simp
    | cons g gs =>
      by_cases h : a = '/' <;> simp [h]

theorem splitSlash_append (a b : List Char) :
    splitSlash (a ++ '/' :: b) = splitSlash a ++ splitSlash b := by
  induction a with
  | nil =>
    simp only [List.nil_append, splitSlash]
    cases hb : splitSlash b with
    | nil => exact absurd hb (splitSlash_ne_nil b)
    | cons g gs => simp
  | cons x xs ih =>
    obtain ⟨g, gs, hg⟩ : ∃ g gs, splitSlash xs = g :: gs := by
      cases h : splitSlash xs with
      | nil => exact absurd h (splitSlash_ne_nil xs)
      | cons g gs => exact ⟨g, gs, rfl⟩
    show splitSlash (x :: (xs ++ '/' :: b)) = _
    simp only [splitSlash, ih, hg, List.cons_append]
    by_cases hx : x = '/' <;> simp [hx]

theorem splitSlash_no_slash : ∀ l : List Char, '/' ∉ l → splitSlash l = [l] := by
  intro l
  induction l with
  | nil => intro _; rfl
  | cons a as ih =>
    intro h
    have ha : a ≠ '/' := fun e => h (e ▸ List.mem_cons_self a as)
    have has : '/' ∉ as := fun e => h (List.mem_cons_of_mem a e)
    simp only [splitSlash, ih has]
    simp [ha]

theorem normSegs_append_single (segs : List (List Char)) (seg : List Char)
    (h0 : seg ≠ []) (h1 : seg ≠ ['.']) (h2 : seg ≠ ['.', '.']) :
    normSegs (segs ++ [seg]) = normSegs segs ++ [seg] := by
  simp only [normSegs, List.foldl_append, List.foldl_cons, List.foldl_nil]
  simp [normStep, h0, h1, h2]

theorem crumbFold (parts : List (List Char)) :
    ∀ (pre : String) (acc : List Crumb),
      (parts.foldl
        (fun st p =>
          let current := st.1 ++ String.mk p ++ "/"
          (current, st.2 ++ [{ Label := String.mk p ++ "/", URL := current }]))
        (pre, acc)).2
      = acc ++ crumbsFrom pre parts := by
  induction parts with
  | nil => intro pre acc; simp [crumbsFrom]
  | cons p rest ih =>
    intro pre acc
    simp only [List.foldl_cons]
    rw [ih]
    simp [crumbsFrom]

theorem sizeLoopF_exp_bound :
    ∀ (k fuel n d e : Nat), n < 1024 ^ (k + 1) → (sizeLoopF fuel n d e).2 ≤ e + k := by
  intro k
  induction k with
  | zero =>
    intro fuel n d e h
    cases fuel with
    | zero => simp [sizeLoopF]
    | succ f =>
      simp only [sizeLoopF]
      rw [if_neg (by simpa using h)]
      simp
  | succ k ih =>
    intro fuel n d e h
    cases fuel with
    | zero => simp [sizeLoopF]
    | succ f =>
      simp only [sizeLoopF]
      by_cases hn : 1024 ≤ n
      · rw [if_pos hn]
        have hdiv : n / 1024 < 1024 ^ (k + 1) := by
          rw [Nat.div_lt_iff_lt_mul (by omega : 0 < 1024)]
          calc n < 1024 ^ (k + 1 + 1) := h
          _ = 1024 ^ (k + 1) * 1024 := by rw [pow_succ]
        have := ih f (n / 1024) (d * 1024) (e + 1) hdiv
        omega
      · rw [if_neg hn]
        simp

theorem sizeLoopF_fuel_irrelevant :
    ∀ (f₁ f₂ n d e : Nat), n ≤ f₁ → n ≤ f₂ → sizeLoopF f₁ n d e = sizeLoopF f₂ n d e := by
  intro f₁
  induction f₁ with
  | zero =>
    intro f₂ n d e h1 _
    have hn : n = 0 := by omega
    subst hn
    cases f₂ with
    | zero => rfl
    | succ f => simp [sizeLoopF]
  | succ f ih =>
    intro f₂ n d e h1 h2
    cases f₂ with
    | zero =>
      have hn : n = 0 := by omega
      subst hn
      simp [sizeLoopF]
    | succ f₂' =>
      simp only [sizeLoopF]
      by_cases hn : 1024 ≤ n
      · rw [if_pos hn, if_pos hn]
        have hlt : n / 1024 < n := Nat.div_lt_self (by omega) (by omega)
        exact ih f₂' (n / 1024) _ _ (by omega) (by omega)
      · rw [if_neg hn, if_neg hn]

theorem sizeExp_le_five {b : Nat} (h : b < 2 ^ 63) : sizeExp b ≤ 5 := by
  unfold sizeExp sizeLoop
  have hdiv : b / 1024 < 1024 ^ 6 := by
    rw [Nat.div_lt_iff_lt_mul (by omega : 0 < 1024)]
    calc b < 2 ^ 63 := h
    _ ≤ 1024 ^ 6 * 1024 := by norm_num
  simpa using sizeLoopF_exp_bound 5 b (b / 1024) 1024 0 hdiv

theorem sanitize_no_slash (fn : String) : '/' ∉ (sanitizeFilename fn).data := by
  intro h
  simp only [sanitizeFilename] at h
  obtain ⟨c, _, hc⟩ := List.mem_map.mp h
  by_cases h' : c = '/'
  · simp [h'] at hc
  · simp [h'] at hc

/-! ## The claims -/

/-- C1: the claim states that every request URL path containing `../`
segments whose join onto `/files` resolves outside the root is rejected
by the browse handler.  The code violates this: for the URL path
`/../filesecret/` the join produces `/filesecret`, which passes the
`strings.HasPrefix` confinement check even though it lies outside the
root, and the handler proceeds to list the outside directory. -/
theorem pathHandler_escape_on_dotdot :
    filepathJoin filesDir "/../filesecret/" = "/filesecret" ∧
    goHasPrefixB (filepathJoin filesDir "/../filesecret/") filesDir = true ∧
    withinRoot (filepathJoin filesDir "/../filesecret/") = false ∧
    pathHandler fsEscape "/../filesecret/" = .listing "/filesecret" := by
  refine ⟨by decide, by decide, by decide, by decide⟩

/-- C2: the upload handler replaces every `/` of the declared filename
with `_` before joining, so the stored base name contains no `/`, the
joined final path is the (cleaned) target directory's segments plus that
single flattened name — no subdirectory arises from the filename — and
uploading `a/b/evil.txt` to `/target` stores `/files/target/a_b_evil.txt`. -/
theorem upload_filename_flattened :
    (∀ fn : String, '/' ∉ (sanitizeFilename fn).data) ∧
    (∀ (dir fn : String), '/' ∈ fn.data →
      filepathJoin dir (sanitizeFilename fn)
        = String.mk ('/' :: joinSegs (normSegs (splitSlash dir.data)
            ++ [(sanitizeFilename fn).data]))) ∧
    uploadHandler ⟨true, "POST", "/target", some "a/b/evil.txt", true, true⟩
      = (.seeOther "/target",
         [.mkdirAll "/files/target", .create "/files/target/a_b_evil.txt",
          .copyTo "/files/target/a_b_evil.txt"]) := by
  refine ⟨sanitize_no_slash, ?_, by decide⟩
  intro dir fn h
  have hm : '_' ∈ (sanitizeFilename fn).data := by
    simp only [sanitizeFilename]
    exact List.mem_map.mpr ⟨'/', h, by simp⟩
  have h0 : (sanitizeFilename fn).data ≠ [] := by
    intro e; rw [e] at hm; simp at hm
  have h1 : (sanitizeFilename fn).data ≠ ['.'] := by
    intro e; rw [e] at hm; simp at hm
  have h2 : (sanitizeFilename fn).data ≠ ['.', '.'] := by
    intro e; rw [e] at hm; simp at hm
  unfold filepathJoin cleanAbsL
  rw [splitSlash_append, splitSlash_no_slash _ (sanitize_no_slash fn),
    normSegs_append_single _ _ h0 h1 h2]

/-- Witness for C2 at the concrete inputs of the claim's example. -/
theorem upload_filename_flattened_witness :
    filepathJoin "/files/target" (sanitizeFilename "a/b/evil.txt")
      = String.mk ('/' :: joinSegs (normSegs (splitSlash "/files/target".data)
          ++ [(sanitizeFilename "a/b/evil.txt").data])) :=
  upload_filename_flattened.2.1 "/files/target" "a/b/evil.txt" (by decide)

/-- C3: when uploads are disabled the upload handler answers Forbidden
with a fixed message and performs no filesystem write at all, whatever
the method, target directory, body well-formedness or oracle answers. -/
theorem uploadHandler_disabled_no_write (c : UploadCtx) (h : c.enableUpload = false) :
    uploadHandler c = (.forbidden "File uploads are disabled", []) := by
  simp [uploadHandler, h]

/-- Witness for C3: a POST with a well-formed body, uploads disabled. -/
theorem uploadHandler_disabled_no_write_witness :
    uploadHandler ⟨false, "POST", "/d", some "ok.txt", true, true⟩
      = (.forbidden "File uploads are disabled", []) :=
  uploadHandler_disabled_no_write ⟨false, "POST", "/d", some "ok.txt", true, true⟩ rfl

/-- C4: for any input entries, the listing is a permutation of the
constructed rows that is sorted with every directory row before every
file row and, within rows of the same kind, ascending by name in
byte/codepoint order. -/
theorem listDirectory_sorted (entries : List RawEntry) :
    (listDirectory entries).Perm (entries.filterMap mkFileInfo) ∧
    (listDirectory entries).Pairwise (fun a b =>
      (b.IsDir = true → a.IsDir = true) ∧
      (a.IsDir = b.IsDir → strLtL b.Name.data a.Name.data = false)) := by
  constructor
  · exact sortFileInfos_perm _
  · refine (sortFileInfos_pairwise _).imp ?_
    intro a b h
    refine ⟨?_, ?_⟩
    · intro hb
      cases hA : a.IsDir
      · rw [entLess, hb, hA] at h
        simp at h
      · rfl
    · intro heq
      rw [entLess, ← heq] at h
      cases hA : a.IsDir <;> rw [hA] at h <;> simpa using h

theorem repr_len_one {n : Nat} (h : n < 10) : (Nat.repr n).length = 1 := by
  have : ∀ m, m < 10 → (Nat.repr m).length = 1 := by decide
  exact this n h

/-- C5: the size formatter returns the integer count plus ` B` below
1024 bytes; at or above 1024 (within int64 range) it returns a number
with exactly one decimal digit, a space and a unit drawn from
`K M G T P E` followed by `B`; the claim's sample values all hold. -/
theorem formatSize_spec :
    formatSize 0 = "0 B" ∧ formatSize 1023 = "1023 B" ∧ formatSize 1024 = "1.0 KB" ∧
    formatSize 1536 = "1.5 KB" ∧ formatSize 1048576 = "1.0 MB" ∧
    (∀ b : Int, b < 1024 → formatSize b = toString b ++ " B") ∧
    (∀ b : Int, 1024 ≤ b → b < 2 ^ 63 →
      formatSize b
        = Nat.repr (roundHalfEven (10 * b.toNat) (sizeLoop b.toNat).1 / 10) ++ "." ++
          Nat.repr (roundHalfEven (10 * b.toNat) (sizeLoop b.toNat).1 % 10) ++ " " ++
          String.mk [sizeUnits.getD (sizeExp b.toNat) '?'] ++ "B" ∧
      (Nat.repr (roundHalfEven (10 * b.toNat) (sizeLoop b.toNat).1 % 10)).length = 1 ∧
      sizeExp b.toNat ≤ 5 ∧ sizeUnits.getD (sizeExp b.toNat) '?' ∈ sizeUnits) := by
  refine ⟨by decide, by decide, by decide, by decide, by decide, ?_, ?_⟩
  · intro b h
    simp [formatSize, h]
  · intro b h1 h2
    have hexp : sizeExp b.toNat ≤ 5 := sizeExp_le_five (by omega)
    refine ⟨?_, repr_len_one (Nat.mod_lt _ (by omega)), hexp, ?_⟩
    · simp only [formatSize, if_neg (by omega : ¬ b < 1024)]
      rfl
    · have hmem : ∀ k, k ≤ 5 → sizeUnits.getD k '?' ∈ sizeUnits := by decide
      exact hmem _ hexp

/-- Witness for C5's two conditional conjuncts. -/
theorem formatSize_spec_witness :
    formatSize 100 = toString (100 : Int) ++ " B" ∧ sizeExp (1048576 : Int).toNat ≤ 5 :=
  ⟨formatSize_spec.2.2.2.2.2.1 100 (by decide),
   (formatSize_spec.2.2.2.2.2.2 1048576 (by decide) (by decide)).2.2.1⟩

/-- C6: the breadcrumb builder always starts with the root crumb; after
trimming outer `/` an empty remainder gives just the root crumb, and a
nonempty remainder is split on `/` and yields, per segment in order, a
crumb labelled `<segment>/` with the cumulative URL; `/a/b/` produces
the claim's example list. -/
theorem buildBreadcrumbs_spec :
    buildBreadcrumbs "/a/b/"
      = [{ Label := "/", URL := "/" }, { Label := "a/", URL := "/a/" },
         { Label := "b/", URL := "/a/b/" }] ∧
    (∀ p : String, (buildBreadcrumbs p).head? = some { Label := "/", URL := "/" }) ∧
    (∀ p : String, trimSlash p = "" → buildBreadcrumbs p = [{ Label := "/", URL := "/" }]) ∧
    (∀ p : String, trimSlash p ≠ "" →
      buildBreadcrumbs p
        = { Label := "/", URL := "/" } :: crumbsFrom "/" (splitSlash (trimSlash p).data)) := by
  have hempty : ∀ p : String, trimSlash p = "" →
      buildBreadcrumbs p = [{ Label := "/", URL := "/" }] := by
    intro p hp
    simp [buildBreadcrumbs, hp]
  have hgen : ∀ p : String, trimSlash p ≠ "" →
      buildBreadcrumbs p
        = { Label := "/", URL := "/" } :: crumbsFrom "/" (splitSlash (trimSlash p).data) := by
    intro p hp
    simp only [buildBreadcrumbs, if_neg hp]
    rw [crumbFold]
    rfl
  refine ⟨by decide, ?_, hempty, hgen⟩
  intro p
  by_cases hp : trimSlash p = ""
  · rw [hempty p hp]; rfl
  · rw [hgen p hp]; rfl

/-- Witness for C6's two conditional conjuncts. -/
theorem buildBreadcrumbs_spec_witness :
    buildBreadcrumbs "" = [{ Label := "/", URL := "/" }] ∧
    buildBreadcrumbs "/x"
      = { Label := "/", URL := "/" } :: crumbsFrom "/" (splitSlash (trimSlash "/x").data) :=
  ⟨buildBreadcrumbs_spec.2.2.1 "" (by decide), buildBreadcrumbs_spec.2.2.2 "/x" (by decide)⟩

/-- C7: a request whose resolved path is an existing directory and whose
URL path lacks the trailing `/` is answered with a redirect to the
slash-terminated form, and no directory listing is produced. -/
theorem pathHandler_dir_redirect (fs : FS) (urlPath : String)
    (hpre : goHasPrefixB (filepathJoin filesDir urlPath) filesDir = true)
    (hroot : fs filesDir ≠ none)
    (hdir : fs (filepathJoin filesDir urlPath) = some .dir)
    (hslash : goHasSuffix urlPath "/" = false) :
    pathHandler fs urlPath = .redirect (urlPath ++ "/") ∧
    ∀ d, pathHandler fs urlPath ≠ .listing d := by
  have hred : pathHandler fs urlPath = .redirect (urlPath ++ "/") := by
    simp [pathHandler, hpre, hroot, hdir, hslash]
  exact ⟨hred, fun d => by rw [hred]; simp⟩

/-- Witness for C7: root with one subdirectory, request without slash. -/
theorem pathHandler_dir_redirect_witness :
    pathHandler fsSub "/sub" = .redirect "/sub/" ∧
    ∀ d, pathHandler fsSub "/sub" ≠ .listing d :=
  pathHandler_dir_redirect fsSub "/sub" (by decide) (by decide) (by decide) (by decide)

/-- C8 as frozen is false (see `notFoundMsg_echoes_path`): the 404 for an
existing root but nonexistent resolved path echoes the joined absolute
filesystem path.  Amended: confinement-rejected browse requests get the
plain `http.NotFound` body with no path, an unreadable directory is
answered with the fixed literal `Error reading directory`, and every
failing upload reply carries one of five fixed literal messages — none
of these echo a path. -/
theorem rejection_responses_fixed :
    (∀ (fs : FS) (urlPath : String),
      goHasPrefixB (filepathJoin filesDir urlPath) filesDir = false →
      pathHandler fs urlPath = .notFound) ∧
    (∀ parseOk : Bool,
      listDirectoryHandler none parseOk = .errorResp "Error reading directory") ∧
    (∀ (c : UploadCtx) (msg : String),
      (uploadHandler c).1 = .forbidden msg ∨ (uploadHandler c).1 = .badRequest msg ∨
        (uploadHandler c).1 = .internalError msg →
      msg = "File uploads are disabled" ∨ msg = "Invalid upload" ∨
        msg = "Invalid file path" ∨ msg = "Unable to save file" ∨
        msg = "Error saving file") := by
  refine ⟨?_, fun _ => rfl, ?_⟩
  · intro fs urlPath h
    simp [pathHandler, h]
  · intro c msg h
    simp only [uploadHandler] at h
    rcases h with h | h | h <;> repeat' split at h
    all_goals simp at h
    all_goals subst h
    all_goals simp

/-- Witness for C8's amended statement. -/
theorem rejection_responses_fixed_witness :
    pathHandler fsFilesOnly "/../../etc/passwd" = .notFound ∧
    listDirectoryHandler none true = .errorResp "Error reading directory" ∧
    ("File uploads are disabled" = "File uploads are disabled" ∨
      "File uploads are disabled" = "Invalid upload" ∨
      "File uploads are disabled" = "Invalid file path" ∨
      "File uploads are disabled" = "Unable to save file" ∨
      "File uploads are disabled" = "Error saving file") :=
  ⟨rejection_responses_fixed.1 fsFilesOnly "/../../etc/passwd" (by decide),
   rejection_responses_fixed.2.1 true,
   rejection_responses_fixed.2.2 ⟨false, "POST", "", some "x", true, true⟩
     "File uploads are disabled" (Or.inl (by decide))⟩

/-- C8 counterexample: a browse of `/secret.txt` when only the root
exists produces a 404 whose user-visible message contains the underlying
absolute filesystem path `/files/secret.txt`. -/
theorem notFoundMsg_echoes_path :
    pathHandler fsFilesOnly "/secret.txt"
      = .notFoundMsg "/files/secret.txt: no such file or directory" ∧
    containsSeq "/files/secret.txt".data
      "/files/secret.txt: no such file or directory".data = true :=
  ⟨by decide, by decide⟩

/-- C9: a readable child directory appears in the listing with its size
column showing the item count of its immediate entries (singular for
exactly one), or `-` when reading it fails, and no error is propagated. -/
theorem listDirectory_child_dir_item_count (entries : List RawEntry) (e : RawEntry)
    (he : e ∈ entries) (hok : e.infoOk = true) (hdir : e.isDir = true) :
    (∃ fi, fi ∈ listDirectory entries ∧ fi.Name = e.name ∧ fi.IsDir = true ∧
      fi.Size = dirSizeDisplay e.subCount) ∧
    dirSizeDisplay (some 1) = "1 item" ∧ dirSizeDisplay (some 0) = "0 items" ∧
    dirSizeDisplay (some 2) = "2 items" ∧ dirSizeDisplay none = "-" ∧
    (∀ n, n ≠ 1 → dirSizeDisplay (some n) = Nat.repr n ++ " items") := by
  refine ⟨?_, by decide, by decide, by decide, by decide, ?_⟩
  · have hmk : mkFileInfo e = some
        { Name := e.name, Size := dirSizeDisplay e.subCount,
          LastModified := e.modTime, IsDir := true, URL := e.name ++ "/" } := by
      simp [mkFileInfo, hok, hdir]
    exact ⟨_, (sortFileInfos_perm _).mem_iff.mpr (List.mem_filterMap.mpr ⟨e, he, hmk⟩),
      rfl, rfl, rfl⟩
  · intro n hn
    simp [dirSizeDisplay, hn]

/-- Witness for C9 on a one-entry directory. -/
theorem listDirectory_child_dir_item_count_witness :
    ∃ fi, fi ∈ listDirectory [(⟨"adir", true, true, 0, "t", some 1⟩ : RawEntry)] ∧
      fi.Name = "adir" ∧ fi.IsDir = true ∧ fi.Size = dirSizeDisplay (some 1) :=
  (listDirectory_child_dir_item_count [⟨"adir", true, true, 0, "t", some 1⟩]
    ⟨"adir", true, true, 0, "t", some 1⟩ (by decide) rfl rfl).1

/-- C10: the size formatter is total on int64 inputs — its loop is a
terminating function whose unit index never exceeds 5 (the last index of
`KMGTPE`) even at the maximum int64 value, and negative inputs take the
below-1024 branch, yielding the signed integer plus ` B`. -/
theorem formatSize_total_bounds :
    (∀ b : Int, b < 2 ^ 63 → sizeExp b.toNat ≤ 5) ∧
    (∀ b : Int, b < 0 → formatSize b = toString b ++ " B") ∧
    formatSize (2 ^ 63 - 1) = "8.0 EB" := by
  refine ⟨?_, ?_, by decide⟩
  · intro b h
    exact sizeExp_le_five (by omega)
  · intro b h
    simp only [formatSize, if_pos (by omega : b < 1024)]

/-- Witness for C10 at the maximum int64 value and a negative value. -/
theorem formatSize_total_bounds_witness :
    sizeExp (9223372036854775807 : Int).toNat ≤ 5 ∧
    formatSize (-7) = toString (-7 : Int) ++ " B" :=
  ⟨formatSize_total_bounds.1 9223372036854775807 (by norm_num),
   formatSize_total_bounds.2.1 (-7) (by norm_num)⟩

end Filebrowser
